import Mathlib

/-!
A verification development for the Sutra mesh node (Go sources): the claim
data model (`Kpak`), the reconciliation engine, the write-ahead log, TTL
garbage collection, the ingest mediation, and the gossip broadcast contract.

Conventions of the embedding:
* Go `map[string]T` is modelled as an association list with unique keys
  (`lookupA` / `insertA` / `eraseA`); iteration order is irrelevant to every
  property proved here.
* `time.Now().Unix()` is passed in explicitly as a `now : Int` parameter.
* `float32` confidence values are modelled as exact rationals (`Rat`): the
  trust order uses only `>` and `==`, whose behaviour on the represented
  values coincides.
* The `object` payload (Go `interface{}`) is modelled at its wire type,
  `String` (the spec fixes `object` to a string on the wire).
* Files are modelled as `Option (List String)` (their lines); `none` is a
  missing file.
-/

/-! ## Association lists (Go map model) -/

def lookupA {α : Type} (l : List (String × α)) (k : String) : Option α :=
  match l with
  | [] => none
  | p :: rest => if p.1 = k then some p.2 else lookupA rest k

def eraseA {α : Type} (l : List (String × α)) (k : String) : List (String × α) :=
  l.filter (fun p => p.1 ≠ k)

def insertA {α : Type} (l : List (String × α)) (k : String) (v : α) :
    List (String × α) :=
  (k, v) :: eraseA l k

/-- Set-insert into a list of spids (Go `map[string]struct{}` insert). -/
def insertSet (l : List String) (x : String) : List String :=
  if x ∈ l then l else x :: l

theorem lookupA_nil {α : Type} (k : String) : lookupA ([] : List (String × α)) k = none := rfl

theorem eraseA_cons_self {α : Type} (p : String × α) (rest : List (String × α))
    (k : String) (hp : p.1 = k) : eraseA (p :: rest) k = eraseA rest k := by
  simp [eraseA, List.filter_cons, hp]

theorem eraseA_cons_ne {α : Type} (p : String × α) (rest : List (String × α))
    (k : String) (hp : p.1 ≠ k) : eraseA (p :: rest) k = p :: eraseA rest k := by
  simp [eraseA, List.filter_cons, hp]

theorem lookupA_eraseA_self {α : Type} (l : List (String × α)) (k : String) :
    lookupA (eraseA l k) k = none := by
  induction l with
  | nil => rfl
  | cons p rest ih =>
    by_cases hp : p.1 = k
    · rw [eraseA_cons_self p rest k hp]; exact ih
    · rw [eraseA_cons_ne p rest k hp]
      simp [lookupA, hp, ih]

theorem lookupA_eraseA_ne {α : Type} (l : List (String × α)) (k k' : String)
    (h : k' ≠ k) : lookupA (eraseA l k) k' = lookupA l k' := by
  induction l with
  | nil => rfl
  | cons p rest ih =>
    by_cases hp : p.1 = k
    · have hpk : ¬ p.1 = k' := fun he => h (he.symm.trans hp)
      rw [eraseA_cons_self p rest k hp, ih]
      simp [lookupA, hpk]
    · rw [eraseA_cons_ne p rest k hp]
      by_cases hk : p.1 = k'
      · simp [lookupA, hk]
      · simp [lookupA, hk, ih]

theorem lookupA_insertA_self {α : Type} (l : List (String × α)) (k : String) (v : α) :
    lookupA (insertA l k v) k = some v := by
  simp [insertA, lookupA]

theorem lookupA_insertA_ne {α : Type} (l : List (String × α)) (k k' : String) (v : α)
    (h : k' ≠ k) : lookupA (insertA l k v) k' = lookupA l k' := by
  simp only [insertA, lookupA]
  rw [if_neg (fun he => h he.symm)]
  exact lookupA_eraseA_ne l k k' h

theorem mem_of_lookupA {α : Type} (l : List (String × α)) (k : String) (v : α)
    (h : lookupA l k = some v) : (k, v) ∈ l := by
  induction l with
  | nil => simp [lookupA] at h
  | cons p rest ih =>
    by_cases hp : p.1 = k
    · rw [lookupA, if_pos hp] at h
      injection h with h2
      cases p with
      | mk a b =>
        subst hp; subst h2
        exact List.mem_cons_self _ _
    · rw [lookupA, if_neg hp] at h
      exact List.mem_cons_of_mem _ (ih h)

theorem mem_insertSet_self (l : List String) (x : String) : x ∈ insertSet l x := by
  by_cases h : x ∈ l <;> simp [insertSet, h]

theorem mem_insertSet_iff (l : List String) (x y : String) :
    y ∈ insertSet l x ↔ y = x ∨ y ∈ l := by
  by_cases h : x ∈ l
  · simp only [insertSet, if_pos h]
    constructor
    · exact fun hy => Or.inr hy
    · rintro (rfl | hy)
      · exact h
      · exact hy
  · simp [insertSet, if_neg h]

/-! ## SHA-256 over byte lists (used by the derived `id` / `spid` fingerprints) -/

def w32 (n : Nat) : Nat := n % 4294967296

def rotr32 (x n : Nat) : Nat :=
  w32 ((x >>> n) ||| (x <<< (32 - n)))

def shaK : List Nat :=
  [1116352408, 1899447441, 3049323471, 3921009573, 961987163, 1508970993,
   2453635748, 2870763221, 3624381080, 310598401, 607225278, 1426881987,
   1925078388, 2162078206, 2614888103, 3248222580, 3835390401, 4022224774,
   264347078, 604807628, 770255983, 1249150122, 1555081692, 1996064986,
   2554220882, 2821834349, 2952996808, 3210313671, 3336571891, 3584528711,
   113926993, 338241895, 666307205, 773529912, 1294757372, 1396182291,
   1695183700, 1986661051, 2177026350, 2456956037, 2730485921, 2820302411,
   3259730800, 3345764771, 3516065817, 3600352804, 4094571909, 275423344,
   430227734, 506948616, 659060556, 883997877, 958139571, 1322822218,
   1537002063, 1747873779, 1955562222, 2024104815, 2227730452, 2361852424,
   2428436474, 2756734187, 3204031479, 3329325298]

def shaH0 : List Nat :=
  [1779033703, 3144134277, 1013904242, 2773480762, 1359893119, 2600822924,
   528734635, 1541459225]

/-- Big-endian split of a natural into `n` bytes. -/
def beBytes (n : Nat) (x : Nat) : List Nat :=
  match n with
  | 0 => []
  | m + 1 => beBytes m (x / 256) ++ [x % 256]

/-- SHA-256 message padding: append `0x80`, zeros, then the 64-bit
bit length, so the total is a multiple of 64 bytes. -/
def shaPad (msg : List Nat) : List Nat :=
  let len := msg.length
  let zeros := (55 + 64 - len % 64) % 64
  msg ++ [128] ++ List.replicate zeros 0 ++ beBytes 8 (len * 8)

/-- Fold a list of 4 bytes (big-endian) into a 32-bit word. -/
def word32OfBytes (bs : List Nat) : Nat :=
  bs.foldl (fun acc b => acc * 256 + b) 0

/-- Group a byte list into big-endian 32-bit words.  The input (a padded
SHA-256 message) always has length a multiple of 4; shorter leftovers are
packed as a final word so the function is total. -/
def chunkWords : List Nat → List Nat
  | [] => []
  | a :: b :: c :: d :: rest => word32OfBytes [a, b, c, d] :: chunkWords rest
  | l => [word32OfBytes l]

/-- Group a word list into 16-word blocks.  The input always has length a
multiple of 16; a shorter leftover becomes a final (never occurring) block. -/
def toBlocks : List Nat → List (List Nat)
  | [] => []
  | w0 :: w1 :: w2 :: w3 :: w4 :: w5 :: w6 :: w7 ::
      w8 :: w9 :: w10 :: w11 :: w12 :: w13 :: w14 :: w15 :: rest =>
    [w0, w1, w2, w3, w4, w5, w6, w7, w8, w9, w10, w11, w12, w13, w14, w15] ::
      toBlocks rest
  | l => [l]

def smallSigma0 (x : Nat) : Nat := (rotr32 x 7) ^^^ (rotr32 x 18) ^^^ (x >>> 3)
def smallSigma1 (x : Nat) : Nat := (rotr32 x 17) ^^^ (rotr32 x 19) ^^^ (x >>> 10)
def bigSigma0 (x : Nat) : Nat := (rotr32 x 2) ^^^ (rotr32 x 13) ^^^ (rotr32 x 22)
def bigSigma1 (x : Nat) : Nat := (rotr32 x 6) ^^^ (rotr32 x 11) ^^^ (rotr32 x 25)

/-- Extend 16 message words to the 64-entry schedule. -/
def shaSchedule (block : List Nat) : List Nat :=
  let step := fun (ws : List Nat) (_ : Nat) =>
    let t2 := ws.getD (ws.length - 2) 0
    let t7 := ws.getD (ws.length - 7) 0
    let t15 := ws.getD (ws.length - 15) 0
    let t16 := ws.getD (ws.length - 16) 0
    ws ++ [w32 (smallSigma1 t2 + t7 + smallSigma0 t15 + t16)]
  (List.range 48).foldl step block

def shaCompressBlock (h : List Nat) (block : List Nat) : List Nat :=
  let ws := shaSchedule block
  let init := (h.getD 0 0, h.getD 1 0, h.getD 2 0, h.getD 3 0,
               h.getD 4 0, h.getD 5 0, h.getD 6 0, h.getD 7 0)
  let round := fun st (kw : Nat × Nat) =>
    match st with
    | (a, b, c, d, e, f, g, hh) =>
      let t1 := w32 (hh + bigSigma1 e + ((e &&& f) ^^^ ((4294967295 - e) &&& g)) + kw.1 + kw.2)
      let t2 := w32 (bigSigma0 a + ((a &&& b) ^^^ (a &&& c) ^^^ (b &&& c)))
      (w32 (t1 + t2), a, b, c, w32 (d + t1), e, f, g)
  match (shaK.zip ws).foldl round init with
  | (a, b, c, d, e, f, g, hh) =>
    [w32 (h.getD 0 0 + a), w32 (h.getD 1 0 + b), w32 (h.getD 2 0 + c),
     w32 (h.getD 3 0 + d), w32 (h.getD 4 0 + e), w32 (h.getD 5 0 + f),
     w32 (h.getD 6 0 + g), w32 (h.getD 7 0 + hh)]

/-- SHA-256 digest of a byte list, as the 8 hash words. -/
def sha256Words (msg : List Nat) : List Nat :=
  (toBlocks (chunkWords (shaPad msg))).foldl shaCompressBlock shaH0

def hexDigitChar (n : Nat) : Char :=
  if n < 10 then Char.ofNat (48 + n) else Char.ofNat (87 + n)

/-- Lowercase hex of one 32-bit word (8 digits). -/
def hexWord (x : Nat) : List Char :=
  [hexDigitChar (x / 268435456 % 16), hexDigitChar (x / 16777216 % 16),
   hexDigitChar (x / 1048576 % 16), hexDigitChar (x / 65536 % 16),
   hexDigitChar (x / 4096 % 16), hexDigitChar (x / 256 % 16),
   hexDigitChar (x / 16 % 16), hexDigitChar (x % 16)]

/-- The 64-character lowercase hex digest (Go `fmt.Sprintf("%x", hash)`). -/
def sha256Hex (msg : List Nat) : String :=
  String.mk ((sha256Words msg).foldr (fun wd acc => hexWord wd ++ acc) [])

/-- UTF-8 bytes of a string (Go `[]byte(s)`). -/
def utf8Bytes (s : String) : List Nat :=
  s.data.foldr
    (fun c acc =>
      let n := c.toNat
      if n < 128 then n :: acc
      else if n < 2048 then (192 + n / 64) :: (128 + n % 64) :: acc
      else if n < 65536 then
        (224 + n / 4096) :: (128 + n / 64 % 64) :: (128 + n % 64) :: acc
      else
        (240 + n / 262144) :: (128 + n / 4096 % 64) :: (128 + n / 64 % 64) ::
          (128 + n % 64) :: acc)
    []

/-- First `n` characters of a string (Go slicing `s[:n]` of an ASCII
string such as a hex digest). -/
def strTake (s : String) (n : Nat) : String :=
  String.mk (s.data.take n)

example : sha256Hex (utf8Bytes "abc") =
    "ba7816bf8f01cfea414140de5dae2223b00361a396177a9cb410ff61f20015ad" := by decide

example : strTake (sha256Hex (utf8Bytes "Alice|age")) 12 = "c79664a8b36f" := by decide

/-! ## Formatting helpers for the fingerprint payloads

`generateID` hashes `fmt.Sprintf("%s|%s|%v|%s|%f|%d", ...)`.  `%v` of the
(string-typed) object prints it verbatim; `%f` prints the confidence with
six decimals; `%d` prints the timestamp in decimal. -/

def padZeros (n : Nat) (cs : List Char) : List Char :=
  List.replicate (n - cs.length) '0' ++ cs

/-- Decimal rendering of an `Int` (Go `%d`). -/
def intDec (i : Int) : String :=
  if i < 0 then "-" ++ Nat.repr (-i).toNat else Nat.repr i.toNat

/-- Go `%f` (six decimals) of the exact rational represented by the float:
round `|q| * 10^6` to the nearest integer.  Decimal ties cannot occur for
dyadic float values, so rounding half-up agrees with Go's correctly-rounded
output on representable inputs. -/
def fmtFloat6 (q : Rat) : String :=
  let sign := if q.num < 0 then "-" else ""
  let a := q.num.natAbs * 1000000
  let n := (2 * a + q.den) / (2 * q.den)
  sign ++ Nat.repr (n / 1000000) ++ "." ++ String.mk (padZeros 6 (Nat.repr (n % 1000000)).data)

example : fmtFloat6 (mkRat 1 2) = "0.500000" := by decide
example : fmtFloat6 (mkRat 99 100) = "0.990000" := by decide

def spidPayload (subject predicate : String) : String :=
  subject ++ "|" ++ predicate

def idPayload (subject predicate object source : String) (confidence : Rat)
    (timestamp : Int) : String :=
  subject ++ "|" ++ predicate ++ "|" ++ object ++ "|" ++ source ++ "|" ++
    fmtFloat6 confidence ++ "|" ++ intDec timestamp

/-- 12-hex-char prefix of SHA-256 over `subject|predicate` (`GenerateSPID`). -/
def GenerateSPIDStr (subject predicate : String) : String :=
  strTake (sha256Hex (utf8Bytes (spidPayload subject predicate))) 12

/-- 16-hex-char prefix of SHA-256 over the full content payload (`generateID`). -/
def generateIDStr (subject predicate object source : String) (confidence : Rat)
    (timestamp : Int) : String :=
  strTake (sha256Hex (utf8Bytes (idPayload subject predicate object source confidence timestamp))) 16

/-! ## The claim record (`core.Kpak`) -/

structure Kpak where
  subject : String
  predicate : String
  object : String
  source : String
  confidence : Rat
  timestamp : Int
  expiresAt : Int
  id : String
  spid : String
deriving DecidableEq, Repr

def Kpak.GenerateSPID (k : Kpak) : String :=
  GenerateSPIDStr k.subject k.predicate

def Kpak.generateID (k : Kpak) : String :=
  generateIDStr k.subject k.predicate k.object k.source k.confidence k.timestamp

/-- Trust order: higher confidence wins; on equal confidence the more
recent timestamp wins. -/
def Kpak.IsMoreTrustedThan (k other : Kpak) : Bool :=
  if k.confidence > other.confidence then true
  else if k.confidence = other.confidence then decide (k.timestamp > other.timestamp)
  else false

/-- Expiration check, with `time.Now().Unix()` passed in as `now`. -/
def Kpak.IsExpired (k : Kpak) (now : Int) : Bool :=
  if k.expiresAt = 0 then false else decide (now ≥ k.expiresAt)

/-- `core.NewKpakWithTTL`, with `now` passed explicitly. -/
def NewKpakWithTTL (subject predicate object source : String) (confidence : Rat)
    (ttlSeconds : Int) (now : Int) : Kpak :=
  let expiresAt : Int := if ttlSeconds > 0 then now + ttlSeconds else 0
  { subject := subject, predicate := predicate, object := object,
    source := source, confidence := confidence, timestamp := now,
    expiresAt := expiresAt,
    id := generateIDStr subject predicate object source confidence now,
    spid := GenerateSPIDStr subject predicate }

/-! ## JSON values and `ToJSON` / `FromJSON`

Serialization is modelled at the JSON-value level: `Kpak.ToJSON` produces
the object `encoding/json` marshals (all nine fields, Go struct order) and
`Kpak.FromJSON` reads one back with `json.Unmarshal` struct semantics
(missing members leave the zero value, duplicate members last-wins,
mismatched member types are an error, a `null` document yields the zero
record). -/

inductive Json where
  | null
  | bool (b : Bool)
  | num (q : Rat)
  | str (s : String)
  | arr (elems : List Json)
  | obj (fields : List (String × Json))
deriving Repr

def Kpak.ToJSON (k : Kpak) : Json :=
  Json.obj
    [("subject", Json.str k.subject), ("predicate", Json.str k.predicate),
     ("object", Json.str k.object), ("source", Json.str k.source),
     ("confidence", Json.num k.confidence),
     ("timestamp", Json.num (k.timestamp : Rat)),
     ("expires_at", Json.num (k.expiresAt : Rat)),
     ("id", Json.str k.id), ("spid", Json.str k.spid)]

/-- Duplicate JSON members: `encoding/json` keeps the last. -/
def jsonField (fields : List (String × Json)) (key : String) : Option Json :=
  lookupA fields.reverse key

def getStr : Option Json → Option String
  | none => some ""
  | some .null => some ""
  | some (.str s) => some s
  | some _ => none

def getNum : Option Json → Option Rat
  | none => some 0
  | some .null => some 0
  | some (.num q) => some q
  | some _ => none

def getInt : Option Json → Option Int
  | none => some 0
  | some .null => some 0
  | some (.num q) => if q.den = 1 then some q.num else none
  | some _ => none

def zeroKpak : Kpak :=
  { subject := "", predicate := "", object := "", source := "",
    confidence := 0, timestamp := 0, expiresAt := 0, id := "", spid := "" }

def Kpak.FromJSON : Json → Option Kpak
  | Json.null => some zeroKpak
  | Json.obj fields => do
    let subject ← getStr (jsonField fields "subject")
    let predicate ← getStr (jsonField fields "predicate")
    let object ← getStr (jsonField fields "object")
    let source ← getStr (jsonField fields "source")
    let confidence ← getNum (jsonField fields "confidence")
    let timestamp ← getInt (jsonField fields "timestamp")
    let expiresAt ← getInt (jsonField fields "expires_at")
    let id ← getStr (jsonField fields "id")
    let spid ← getStr (jsonField fields "spid")
    some { subject := subject, predicate := predicate, object := object,
           source := source, confidence := confidence, timestamp := timestamp,
           expiresAt := expiresAt, id := id, spid := spid }
  | _ => none

/-! ## JSON text parsing (`encoding/json` document syntax)

A fuel-indexed recursive-descent parser for JSON documents, used to model
`json.Unmarshal` on WAL lines.  A document with trailing non-whitespace is
rejected, as `json.Unmarshal` rejects it. -/

def hexVal (c : Char) : Option Nat :=
  let n := c.toNat
  if 48 ≤ n ∧ n ≤ 57 then some (n - 48)
  else if 97 ≤ n ∧ n ≤ 102 then some (n - 87)
  else if 65 ≤ n ∧ n ≤ 70 then some (n - 55)
  else none

def isWsChar (c : Char) : Bool :=
  c == ' ' || c == '\t' || c == '\n' || c == '\r'

def skipWs : List Char → List Char
  | [] => []
  | c :: rest => if isWsChar c then skipWs rest else c :: rest

/-- Parse the body of a string literal (after the opening quote), returning
the decoded characters and the remainder after the closing quote. -/
def parseStrChars : List Char → Option (List Char × List Char)
  | [] => none
  | c :: rest =>
    if c = '"' then some ([], rest)
    else if c = '\\' then
      match rest with
      | [] => none
      | e :: rest2 =>
        if e = 'u' then
          match rest2 with
          | h1 :: h2 :: h3 :: h4 :: rest3 =>
            match hexVal h1, hexVal h2, hexVal h3, hexVal h4 with
            | some v1, some v2, some v3, some v4 =>
              match parseStrChars rest3 with
              | some (cs, rem) =>
                some (Char.ofNat (v1 * 4096 + v2 * 256 + v3 * 16 + v4) :: cs, rem)
              | none => none
            | _, _, _, _ => none
          | _ => none
        else
          let esc : Option Char :=
            if e = '"' then some '"'
            else if e = '\\' then some '\\'
            else if e = '/' then some '/'
            else if e = 'n' then some '\n'
            else if e = 't' then some '\t'
            else if e = 'r' then some '\r'
            else if e = 'b' then some (Char.ofNat 8)
            else if e = 'f' then some (Char.ofNat 12)
            else none
          match esc with
          | some ch =>
            match parseStrChars rest2 with
            | some (cs, rem) => some (ch :: cs, rem)
            | none => none
          | none => none
    else
      match parseStrChars rest with
      | some (cs, rem) => some (c :: cs, rem)
      | none => none

def takeDigits : List Char → List Char × List Char
  | [] => ([], [])
  | c :: rest =>
    if c.isDigit then
      let (ds, rem) := takeDigits rest
      (c :: ds, rem)
    else ([], c :: rest)

def digitsVal (ds : List Char) : Nat :=
  ds.foldl (fun a c => a * 10 + (c.toNat - 48)) 0

def parseExpTail (cs : List Char) : Option (Int × List Char) :=
  let (esign, cs1) :=
    match cs with
    | '+' :: rest => ((1 : Int), rest)
    | '-' :: rest => ((-1 : Int), rest)
    | _ => ((1 : Int), cs)
  match takeDigits cs1 with
  | ([], _) => none
  | (eds, rem) => some (esign * Int.ofNat (digitsVal eds), rem)

def parseNum (cs : List Char) : Option (Rat × List Char) :=
  let (neg, cs1) :=
    match cs with
    | '-' :: rest => (true, rest)
    | _ => (false, cs)
  match takeDigits cs1 with
  | ([], _) => none
  | (ids, cs2) =>
    let fracRes : Option (List Char × List Char) :=
      match cs2 with
      | '.' :: rest =>
        match takeDigits rest with
        | ([], _) => none
        | (fs, rem) => some (fs, rem)
      | _ => some ([], cs2)
    match fracRes with
    | none => none
    | some (fds, cs3) =>
      let expRes : Option (Int × List Char) :=
        match cs3 with
        | 'e' :: rest => parseExpTail rest
        | 'E' :: rest => parseExpTail rest
        | _ => some ((0 : Int), cs3)
      match expRes with
      | none => none
      | some (ex, cs4) =>
        let mant : Int :=
          (if neg then (-1 : Int) else 1) *
            Int.ofNat (digitsVal ids * 10 ^ fds.length + digitsVal fds)
        let e10 : Int := ex - fds.length
        let q : Rat :=
          if e10 ≥ 0 then mkRat (mant * Int.ofNat (10 ^ e10.toNat)) 1
          else mkRat mant (10 ^ (-e10).toNat)
        some (q, cs4)

inductive JPiece where
  | val (j : Json)
  | fields (fs : List (String × Json))
  | elems (es : List Json)

/-- Core parser.  `mode 0`: one value; `mode 1`/`mode 3`: object members
(`1` also accepts an immediately closing brace); `mode 2`/`mode 4`: array
elements (`2` also accepts an immediately closing bracket). -/
def parseCore : Nat → Nat → List Char → Option (JPiece × List Char)
  | 0, _, _ => none
  | fuel + 1, mode, cs =>
    if mode = 0 then
      match skipWs cs with
      | [] => none
      | c :: rest =>
        if c = '"' then
          match parseStrChars rest with
          | some (s, rem) => some (.val (.str (String.mk s)), rem)
          | none => none
        else if c = '{' then
          match parseCore fuel 1 rest with
          | some (.fields fs, rem) => some (.val (.obj fs), rem)
          | _ => none
        else if c = '[' then
          match parseCore fuel 2 rest with
          | some (.elems es, rem) => some (.val (.arr es), rem)
          | _ => none
        else if c = 't' then
          match rest with
          | 'r' :: 'u' :: 'e' :: rem => some (.val (.bool true), rem)
          | _ => none
        else if c = 'f' then
          match rest with
          | 'a' :: 'l' :: 's' :: 'e' :: rem => some (.val (.bool false), rem)
          | _ => none
        else if c = 'n' then
          match rest with
          | 'u' :: 'l' :: 'l' :: rem => some (.val .null, rem)
          | _ => none
        else
          match parseNum (c :: rest) with
          | some (q, rem) => some (.val (.num q), rem)
          | none => none
    else if mode = 1 || mode = 3 then
      match skipWs cs with
      | '}' :: rem => if mode = 1 then some (.fields [], rem) else none
      | '"' :: rest =>
        match parseStrChars rest with
        | none => none
        | some (key, rem1) =>
          match skipWs rem1 with
          | ':' :: rem2 =>
            match parseCore fuel 0 rem2 with
            | some (.val v, rem3) =>
              (match skipWs rem3 with
               | ',' :: rem4 =>
                 match parseCore fuel 3 rem4 with
                 | some (.fields fs, rem5) =>
                   some (.fields ((String.mk key, v) :: fs), rem5)
                 | _ => none
               | '}' :: rem4 => some (.fields [(String.mk key, v)], rem4)
               | _ => none)
            | _ => none
          | _ => none
      | _ => none
    else
      match skipWs cs with
      | ']' :: rem => if mode = 2 then some (.elems [], rem) else none
      | cs2 =>
        match parseCore fuel 0 cs2 with
        | some (.val v, rem1) =>
          (match skipWs rem1 with
           | ',' :: rem2 =>
             match parseCore fuel 4 rem2 with
             | some (.elems es, rem3) => some (.elems (v :: es), rem3)
             | _ => none
           | ']' :: rem2 => some (.elems [v], rem2)
           | _ => none)
        | _ => none

/-- Parse a complete JSON document (no trailing garbage). -/
def parseJsonText (s : String) : Option Json :=
  match parseCore (s.data.length + 1) 0 s.data with
  | some (.val j, rem) => if skipWs rem = [] then some j else none
  | _ => none

/-- `core.FromJSON` on a line of text: JSON parse, then struct decode. -/
def FromJSONStr (line : String) : Option Kpak :=
  match parseJsonText line with
  | some j => Kpak.FromJSON j
  | none => none

/-! ## The write-ahead log (`store.WAL.Load`)

The file is modelled by its lines; `none` is a missing file (which Go
reports as an empty result with no error). -/

def WALLoadLines (lines : List String) : List Kpak :=
  lines.foldl
    (fun acc line =>
      if line.length = 0 then acc
      else
        match FromJSONStr line with
        | none => acc
        | some k => acc ++ [k])
    []

def WALLoad (file : Option (List String)) : List Kpak :=
  match file with
  | none => []
  | some lines => WALLoadLines lines

/-! ## The reconciliation engine (`reconciliation.Engine`) -/

structure Engine where
  truthStore : List (String × Kpak)
  subjectIndex : List (String × List String)
deriving Repr, DecidableEq

def NewEngine : Engine := { truthStore := [], subjectIndex := [] }

/-- Install an accepted claim in both containers. -/
def Engine.acceptKpak (e : Engine) (k : Kpak) : Engine :=
  { truthStore := insertA e.truthStore k.spid k,
    subjectIndex :=
      match lookupA e.subjectIndex k.subject with
      | none => insertA e.subjectIndex k.subject [k.spid]
      | some s => insertA e.subjectIndex k.subject (insertSet s k.spid) }

/-- Reconcile one claim; returns the updated engine and the accepted flag. -/
def Engine.Reconcile (e : Engine) (k : Kpak) : Engine × Bool :=
  match lookupA e.truthStore k.spid with
  | none => (e.acceptKpak k, true)
  | some existing =>
    if k.IsMoreTrustedThan existing then (e.acceptKpak k, true)
    else (e, false)

def Engine.QueryBySubject (e : Engine) (subject : String) : List Kpak :=
  match lookupA e.subjectIndex subject with
  | none => []
  | some spids => spids.filterMap (fun spid => lookupA e.truthStore spid)

def Engine.QueryBySubjectPredicate (e : Engine) (subject predicate : String) :
    Option Kpak :=
  lookupA e.truthStore (GenerateSPIDStr subject predicate)

/-- One iteration of the removal loop of `RemoveExpiredKpaks`: the spid was
collected from the store, so the lookup always succeeds there. -/
def purgeStep (acc : Engine) (spid : String) : Engine :=
  match lookupA acc.truthStore spid with
  | none => acc
  | some k =>
    { truthStore := eraseA acc.truthStore spid,
      subjectIndex :=
        match lookupA acc.subjectIndex k.subject with
        | none => acc.subjectIndex
        | some s =>
          let s2 := s.filter (fun x => x ≠ spid)
          if s2.isEmpty then eraseA acc.subjectIndex k.subject
          else insertA acc.subjectIndex k.subject s2 }

/-- Remove all expired claims; returns the updated engine and the count. -/
def Engine.RemoveExpiredKpaks (e : Engine) (now : Int) : Engine × Nat :=
  let expiredSPIDs := (e.truthStore.filter (fun p => p.2.IsExpired now)).map Prod.fst
  (expiredSPIDs.foldl purgeStep e, expiredSPIDs.length)

/-- A store mutation: reconciliation of one claim, or a GC pass. -/
inductive EngineOp where
  | recK (k : Kpak)
  | purge (now : Int)

def Engine.applyOp (e : Engine) : EngineOp → Engine
  | .recK k => (e.Reconcile k).1
  | .purge now => (e.RemoveExpiredKpaks now).1

def Engine.applyOps (e : Engine) (ops : List EngineOp) : Engine :=
  ops.foldl Engine.applyOp e

/-! ## The node coordinator (`agent.Agent`) pieces the claims need -/

/-- A claim as it arrives on the wire (`v1.Kpak`). -/
structure ProtoKpak where
  subject : String
  predicate : String
  object : String
  source : String
  confidence : Rat
  timestamp : Int
  expiresAt : Int
  id : String
  spid : String
deriving Repr

/-- `Agent.protoToKpak`: TTL/timestamp mediation on ingest, with `now`
passed explicitly and the node's `default_ttl_seconds` as a parameter. -/
def protoToKpak (defaultTTLSeconds : Int) (now : Int) (p : ProtoKpak) : Kpak :=
  let ttlSeconds : Int :=
    if p.expiresAt > 0 then
      if p.expiresAt > now then p.expiresAt - now else 0
    else if defaultTTLSeconds > 0 then defaultTTLSeconds
    else 0
  let k0 := NewKpakWithTTL p.subject p.predicate p.object p.source p.confidence
    ttlSeconds now
  let k1 := if p.timestamp > 0 then { k0 with timestamp := p.timestamp } else k0
  let k2 := if p.expiresAt > 0 then { k1 with expiresAt := p.expiresAt } else k1
  if p.timestamp > 0 then
    { k2 with
      id := generateIDStr k2.subject k2.predicate k2.object k2.source
        k2.confidence k2.timestamp,
      spid := GenerateSPIDStr k2.subject k2.predicate }
  else k2

/-- Result of handling one claim of an ingest stream. -/
structure IngestStepResult where
  engine : Engine
  accepted : Nat
  rejected : Nat
  errs : Nat
  broadcasted : Bool
deriving Repr, DecidableEq

/-- One iteration of `Agent.Ingest`'s receive loop; `walOk` models whether
`wal.Append` succeeded. -/
def ingestOne (e : Engine) (k : Kpak) (walOk : Bool) : IngestStepResult :=
  match e.Reconcile k with
  | (e2, true) =>
    if walOk then
      { engine := e2, accepted := 1, rejected := 0, errs := 0, broadcasted := true }
    else
      { engine := e2, accepted := 0, rejected := 1, errs := 1, broadcasted := false }
  | (e2, false) =>
    { engine := e2, accepted := 0, rejected := 1, errs := 0, broadcasted := false }

/-! ## The gossip layer (`gossip.Manager.BroadcastKpak`) -/

structure MemberInfo where
  name : String
  addr : String
  port : Nat
  state : Nat
deriving Repr, DecidableEq

/-- Gossip manager state: `memberlist = none` models the nil memberlist
before `Start`. -/
structure GossipManager where
  running : Bool
  memberlist : Option (List MemberInfo)
  localName : String
deriving Repr

/-- `Manager.BroadcastKpak`.  `sendOk` models the per-peer network outcome
of `SendBestEffort`; failed sends are only logged, so the result carries
the attempted targets with their outcomes.  Serialization of the claim
record cannot fail in this model (nor can it in Go for these fields). -/
def BroadcastKpak (m : GossipManager) (sendOk : MemberInfo → Bool) (_k : Kpak) :
    Except String (List (MemberInfo × Bool)) :=
  if !m.running || m.memberlist.isNone then
    Except.error "gossip manager not running"
  else
    match m.memberlist with
    | none => Except.error "gossip manager not running"
    | some members =>
      Except.ok ((members.filter (fun mem => mem.name != m.localName)).map
        (fun mem => (mem, sendOk mem)))

/-- `Agent.loadFromWAL`: replay every loaded claim through reconciliation,
counting how many were accepted. -/
def loadFromWAL (e : Engine) (file : Option (List String)) : Engine × Nat :=
  (WALLoad file).foldl
    (fun acc k =>
      match acc.1.Reconcile k with
      | (e2, true) => (e2, acc.2 + 1)
      | (e2, false) => (e2, acc.2))
    (e, 0)

/-! ## Store invariants -/

/-- The two containers of the truth store are coupled: every stored claim
is indexed under its subject, and every index entry is non-empty and
resolves to claims of that subject. -/
def Coupled (e : Engine) : Prop :=
  (∀ x c, lookupA e.truthStore x = some c →
    ∃ S, lookupA e.subjectIndex c.subject = some S ∧ x ∈ S) ∧
  (∀ s S, lookupA e.subjectIndex s = some S →
    S ≠ [] ∧ ∀ x ∈ S, ∃ c, lookupA e.truthStore x = some c ∧ c.subject = s)

/-- Every claim held in the truth store satisfies `S`. -/
def StoredOf (e : Engine) (S : Kpak → Prop) : Prop :=
  ∀ x c, lookupA e.truthStore x = some c → S c

/-- Claims drawn from `S` never disagree about the subject behind a spid. -/
def SpidConsistent (S : Kpak → Prop) : Prop :=
  ∀ k1 k2, S k1 → S k2 → k1.spid = k2.spid → k1.subject = k2.subject

def NodupKeys {α : Type} (l : List (String × α)) : Prop :=
  (l.map Prod.fst).Nodup

/-! ## Concrete example values used by witnesses and counterexamples -/

/-- Two claims with the same spid, equal confidence and equal timestamp
but different content (a tie under the trust order). -/
def kTieA : Kpak :=
  { subject := "pluto", predicate := "is_planet", object := "true",
    source := "OldText", confidence := mkRat 1 2, timestamp := 100,
    expiresAt := 0, id := "idA", spid := "sp" }

def kTieB : Kpak :=
  { subject := "pluto", predicate := "is_planet", object := "false",
    source := "IAU-2006", confidence := mkRat 1 2, timestamp := 100,
    expiresAt := 0, id := "idB", spid := "sp" }

/-- Two claims carrying the same (forged) spid but different subjects, as
deserialized wire or WAL records may. -/
def kBob : Kpak :=
  { subject := "Bob", predicate := "p", object := "o1", source := "s1",
    confidence := mkRat 1 2, timestamp := 100, expiresAt := 0,
    id := "id1", spid := "abc" }

def kAliceForged : Kpak :=
  { subject := "Alice", predicate := "q", object := "o2", source := "s2",
    confidence := mkRat 9 10, timestamp := 100, expiresAt := 0,
    id := "id2", spid := "abc" }

/-- A claim that is expired at `now = 100`. -/
def kExpiring : Kpak :=
  { subject := "srv", predicate := "st", object := "down", source := "mon",
    confidence := mkRat 1 2, timestamp := 10, expiresAt := 50,
    id := "idE", spid := "spE" }

def engineC5 : Engine := (NewEngine.Reconcile kExpiring).1

/-- Well-formed WAL lines and a malformed one. -/
def walGoodLine1 : String :=
  "\x7b\"subject\":\"Alice\",\"predicate\":\"age\",\"object\":\"25\",\"source\":\"S1\",\"confidence\":0.8,\"timestamp\":100,\"expires_at\":0,\"id\":\"i1\",\"spid\":\"s1\"\x7d"

def walGoodLine2 : String :=
  "\x7b\"subject\":\"Bob\",\"predicate\":\"height\",\"object\":\"6ft\",\"source\":\"S2\",\"confidence\":0.7,\"timestamp\":101,\"expires_at\":0,\"id\":\"i2\",\"spid\":\"s2\"\x7d"

def walBadLine : String := "this is not valid json"

/-- A WAL record whose `spid` member is not the fingerprint of its
subject and predicate. -/
def walForgedLine : String :=
  "\x7b\"subject\":\"Alice\",\"predicate\":\"age\",\"object\":\"25\",\"source\":\"S1\",\"confidence\":0.8,\"timestamp\":100,\"expires_at\":0,\"id\":\"i1\",\"spid\":\"feedfacef00d\"\x7d"

/-- The claim `walForgedLine` deserializes to. -/
def kForged : Kpak :=
  { subject := "Alice", predicate := "age", object := "25", source := "S1",
    confidence := mkRat 4 5, timestamp := 100, expiresAt := 0,
    id := "i1", spid := "feedfacef00d" }

def engineReplayForged : Engine := (loadFromWAL NewEngine (some [walForgedLine])).1

/-- An inbound wire claim carrying both a timestamp and an expiry. -/
def protoC6 : ProtoKpak :=
  { subject := "server1", predicate := "status", object := "maintenance",
    source := "admin", confidence := mkRat 1 1, timestamp := 50,
    expiresAt := 200, id := "", spid := "" }

/-- A claim whose spid really is derived from its subject and predicate. -/
def kIngestC10 : Kpak :=
  { subject := "server1", predicate := "status", object := "maintenance",
    source := "admin", confidence := mkRat 1 1, timestamp := 50,
    expiresAt := 0, id := "x",
    spid := GenerateSPIDStr "server1" "status" }

def gossipRunningM : GossipManager :=
  { running := true,
    memberlist := some
      [{ name := "peer1", addr := "10.0.0.1", port := 7946, state := 0 },
       { name := "self", addr := "10.0.0.2", port := 7946, state := 0 }],
    localName := "self" }

/-! ## Helper lemmas: the trust order -/

theorem trusted_iff (k o : Kpak) :
    k.IsMoreTrustedThan o = true ↔
      (o.confidence < k.confidence ∨
        (k.confidence = o.confidence ∧ o.timestamp < k.timestamp)) := by
  unfold Kpak.IsMoreTrustedThan
  split_ifs with h1 h2
  · simp [h1]
  · simp only [decide_eq_true_eq]
    constructor
    · intro h; exact Or.inr ⟨h2, h⟩
    · rintro (hlt | ⟨_, hts⟩)
      · exact absurd hlt h1
      · exact hts
  · constructor
    · intro h; simp at h
    · rintro (hlt | ⟨heq, _⟩)
      · exact absurd hlt h1
      · exact absurd heq h2

theorem IsMoreTrustedThan_self (k : Kpak) : k.IsMoreTrustedThan k = false := by
  rw [Bool.eq_false_iff]
  intro h
  rcases (trusted_iff k k).1 h with hlt | ⟨_, hts⟩
  · exact lt_irrefl _ hlt
  · omega

theorem IsMoreTrustedThan_asymm (k o : Kpak) (h : k.IsMoreTrustedThan o = true) :
    o.IsMoreTrustedThan k = false := by
  rw [Bool.eq_false_iff]
  intro h2
  rcases (trusted_iff k o).1 h with hlt | ⟨heq, hts⟩ <;>
    rcases (trusted_iff o k).1 h2 with hlt2 | ⟨heq2, hts2⟩
  · exact lt_asymm hlt hlt2
  · exact absurd (heq2 ▸ hlt) (lt_irrefl _)
  · exact absurd (heq ▸ hlt2) (lt_irrefl _)
  · omega

/-! ## Helper lemmas: `acceptKpak` and `Reconcile` -/

theorem acceptKpak_ts_self (e : Engine) (k : Kpak) :
    lookupA (e.acceptKpak k).truthStore k.spid = some k :=
  lookupA_insertA_self _ _ _

theorem acceptKpak_ts_ne (e : Engine) (k : Kpak) (x : String) (h : x ≠ k.spid) :
    lookupA (e.acceptKpak k).truthStore x = lookupA e.truthStore x :=
  lookupA_insertA_ne _ _ _ _ h

theorem acceptKpak_si_self (e : Engine) (k : Kpak) :
    ∃ S, lookupA (e.acceptKpak k).subjectIndex k.subject = some S ∧ k.spid ∈ S := by
  unfold Engine.acceptKpak
  rcases hsi : lookupA e.subjectIndex k.subject with _ | s
  · exact ⟨[k.spid], by simp [hsi, lookupA_insertA_self], by simp⟩
  · exact ⟨insertSet s k.spid, by simp [hsi, lookupA_insertA_self],
      mem_insertSet_self s k.spid⟩

theorem acceptKpak_si_ne (e : Engine) (k : Kpak) (s : String) (h : s ≠ k.subject) :
    lookupA (e.acceptKpak k).subjectIndex s = lookupA e.subjectIndex s := by
  unfold Engine.acceptKpak
  rcases hsi : lookupA e.subjectIndex k.subject with _ | S <;>
    simp [hsi, lookupA_insertA_ne _ _ _ _ h]

theorem Reconcile_accept_iff (e : Engine) (c : Kpak) :
    (e.Reconcile c).2 = true ↔
      lookupA e.truthStore c.spid = none ∨
        ∃ old, lookupA e.truthStore c.spid = some old ∧
          c.IsMoreTrustedThan old = true := by
  unfold Engine.Reconcile
  rcases hl : lookupA e.truthStore c.spid with _ | old
  · simp
  · cases ht : c.IsMoreTrustedThan old <;> simp [ht]

theorem Reconcile_eq_of_lookup_none (e : Engine) (c : Kpak)
    (hl : lookupA e.truthStore c.spid = none) :
    e.Reconcile c = (e.acceptKpak c, true) := by
  unfold Engine.Reconcile; rw [hl]

theorem Reconcile_eq_of_lookup_some (e : Engine) (c old : Kpak)
    (hl : lookupA e.truthStore c.spid = some old) :
    e.Reconcile c =
      if c.IsMoreTrustedThan old = true then (e.acceptKpak c, true)
      else (e, false) := by
  unfold Engine.Reconcile; rw [hl]

theorem Reconcile_fst_accept (e : Engine) (c : Kpak)
    (h : (e.Reconcile c).2 = true) : (e.Reconcile c).1 = e.acceptKpak c := by
  rcases hl : lookupA e.truthStore c.spid with _ | old
  · rw [Reconcile_eq_of_lookup_none e c hl]
  · rw [Reconcile_eq_of_lookup_some e c old hl] at h ⊢
    cases ht : c.IsMoreTrustedThan old
    · rw [ht] at h; simp at h
    · simp [ht]

theorem Reconcile_fst_reject (e : Engine) (c : Kpak)
    (h : (e.Reconcile c).2 = false) : (e.Reconcile c).1 = e := by
  rcases hl : lookupA e.truthStore c.spid with _ | old
  · rw [Reconcile_eq_of_lookup_none e c hl] at h; simp at h
  · rw [Reconcile_eq_of_lookup_some e c old hl] at h ⊢
    cases ht : c.IsMoreTrustedThan old
    · simp [ht]
    · rw [ht] at h; simp at h

theorem Reconcile_self_reject (e : Engine) (c : Kpak)
    (h : lookupA e.truthStore c.spid = some c) : (e.Reconcile c).2 = false := by
  unfold Engine.Reconcile
  rw [h]
  simp [IsMoreTrustedThan_self]

/-! ## Helper lemmas: the coupling invariant under `acceptKpak` -/

/-- Every stored claim sits under its own spid key. -/
def KeyedSelf (e : Engine) : Prop :=
  ∀ x c, lookupA e.truthStore x = some c → c.spid = x

theorem acceptKpak_si_eq_none (e : Engine) (k : Kpak)
    (hsi : lookupA e.subjectIndex k.subject = none) :
    (e.acceptKpak k).subjectIndex = insertA e.subjectIndex k.subject [k.spid] := by
  unfold Engine.acceptKpak; rw [hsi]

theorem acceptKpak_si_eq_some (e : Engine) (k : Kpak) (s : List String)
    (hsi : lookupA e.subjectIndex k.subject = some s) :
    (e.acceptKpak k).subjectIndex =
      insertA e.subjectIndex k.subject (insertSet s k.spid) := by
  unfold Engine.acceptKpak; rw [hsi]

theorem acceptKpak_storedOf (e : Engine) (k : Kpak) (S : Kpak → Prop)
    (hst : StoredOf e S) (hk : S k) : StoredOf (e.acceptKpak k) S := by
  intro x c hc
  by_cases hx : x = k.spid
  · subst hx
    rw [acceptKpak_ts_self] at hc
    injection hc with h
    subst h
    exact hk
  · rw [acceptKpak_ts_ne e k x hx] at hc
    exact hst x c hc

theorem acceptKpak_keyedSelf (e : Engine) (k : Kpak) (hks : KeyedSelf e) :
    KeyedSelf (e.acceptKpak k) := by
  intro x c hc
  by_cases hx : x = k.spid
  · subst hx
    rw [acceptKpak_ts_self] at hc
    injection hc with h
    subst h
    rfl
  · rw [acceptKpak_ts_ne e k x hx] at hc
    exact hks x c hc

theorem acceptKpak_coupled (e : Engine) (k : Kpak) (S : Kpak → Prop)
    (hC : Coupled e) (hst : StoredOf e S) (hks : KeyedSelf e)
    (hcons : SpidConsistent S) (hkS : S k) : Coupled (e.acceptKpak k) := by
  obtain ⟨h1, h2⟩ := hC
  constructor
  · intro x c hc
    by_cases hx : x = k.spid
    · subst hx
      rw [acceptKpak_ts_self] at hc
      injection hc with h
      subst h
      exact acceptKpak_si_self e k
    · rw [acceptKpak_ts_ne e k x hx] at hc
      obtain ⟨T, hT, hxT⟩ := h1 x c hc
      by_cases hsub : c.subject = k.subject
      · rw [hsub] at hT
        refine ⟨insertSet T k.spid, ?_,
          (mem_insertSet_iff T k.spid x).2 (Or.inr hxT)⟩
        rw [hsub, acceptKpak_si_eq_some e k T hT, lookupA_insertA_self]
      · rw [acceptKpak_si_ne e k c.subject hsub]
        exact ⟨T, hT, hxT⟩
  · intro s' S' hS'
    by_cases hs : s' = k.subject
    · subst hs
      rcases hsi : lookupA e.subjectIndex k.subject with _ | T
      · rw [acceptKpak_si_eq_none e k hsi, lookupA_insertA_self] at hS'
        injection hS' with hSe
        subst hSe
        refine ⟨by simp, fun x hx => ?_⟩
        have hxk : x = k.spid := by simpa using hx
        subst hxk
        exact ⟨k, acceptKpak_ts_self e k, rfl⟩
      · rw [acceptKpak_si_eq_some e k T hsi, lookupA_insertA_self] at hS'
        injection hS' with hSe
        subst hSe
        refine ⟨List.ne_nil_of_mem (mem_insertSet_self T k.spid), fun x hx => ?_⟩
        rcases (mem_insertSet_iff T k.spid x).1 hx with hxk | hxT
        · subst hxk
          exact ⟨k, acceptKpak_ts_self e k, rfl⟩
        · obtain ⟨_, hall⟩ := h2 k.subject T hsi
          obtain ⟨c, hc, hcs⟩ := hall x hxT
          by_cases hxk : x = k.spid
          · subst hxk
            exact ⟨k, acceptKpak_ts_self e k, rfl⟩
          · refine ⟨c, ?_, hcs⟩
            rw [acceptKpak_ts_ne e k x hxk]
            exact hc
    · have hS'' : lookupA e.subjectIndex s' = some S' := by
        rwa [acceptKpak_si_ne e k s' hs] at hS'
      obtain ⟨hne2, hall⟩ := h2 s' S' hS''
      refine ⟨hne2, fun x hx => ?_⟩
      obtain ⟨c, hc, hcs⟩ := hall x hx
      by_cases hxk : x = k.spid
      · subst hxk
        have hck : c.subject = k.subject :=
          hcons c k (hst _ c hc) hkS (hks _ c hc)
        exact absurd (hcs ▸ hck) hs
      · refine ⟨c, ?_, hcs⟩
        rw [acceptKpak_ts_ne e k x hxk]
        exact hc

/-! ## Helper lemmas: the coupling invariant under purging -/

theorem purgeStep_eq_none (acc : Engine) (s : String)
    (hl : lookupA acc.truthStore s = none) : purgeStep acc s = acc := by
  unfold purgeStep; rw [hl]

theorem purgeStep_ts_eq (acc : Engine) (s : String) (k : Kpak)
    (hl : lookupA acc.truthStore s = some k) :
    (purgeStep acc s).truthStore = eraseA acc.truthStore s := by
  unfold purgeStep; rw [hl]

theorem purgeStep_si_eq_none (acc : Engine) (s : String) (k : Kpak)
    (hl : lookupA acc.truthStore s = some k)
    (hsi : lookupA acc.subjectIndex k.subject = none) :
    (purgeStep acc s).subjectIndex = acc.subjectIndex := by
  simp only [purgeStep, hl, hsi]

theorem purgeStep_si_eq_some (acc : Engine) (s : String) (k : Kpak) (T : List String)
    (hl : lookupA acc.truthStore s = some k)
    (hsi : lookupA acc.subjectIndex k.subject = some T) :
    (purgeStep acc s).subjectIndex =
      if (T.filter (fun x => x ≠ s)).isEmpty then eraseA acc.subjectIndex k.subject
      else insertA acc.subjectIndex k.subject (T.filter (fun x => x ≠ s)) := by
  simp only [purgeStep, hl, hsi]

theorem purgeStep_ts_lookup (acc : Engine) (s x : String) :
    lookupA (purgeStep acc s).truthStore x =
      if x = s then none else lookupA acc.truthStore x := by
  rcases hl : lookupA acc.truthStore s with _ | k
  · rw [purgeStep_eq_none acc s hl]
    by_cases hx : x = s
    · subst hx; rw [if_pos rfl]; exact hl
    · rw [if_neg hx]
  · rw [purgeStep_ts_eq acc s k hl]
    by_cases hx : x = s
    · subst hx; rw [if_pos rfl, lookupA_eraseA_self]
    · rw [if_neg hx, lookupA_eraseA_ne _ _ _ hx]

theorem purgeStep_storedOf (acc : Engine) (s : String) (S : Kpak → Prop)
    (hst : StoredOf acc S) : StoredOf (purgeStep acc s) S := by
  intro x c hc
  rw [purgeStep_ts_lookup] at hc
  by_cases hx : x = s
  · rw [if_pos hx] at hc; cases hc
  · rw [if_neg hx] at hc; exact hst x c hc

theorem purgeStep_keyedSelf (acc : Engine) (s : String) (hks : KeyedSelf acc) :
    KeyedSelf (purgeStep acc s) := by
  intro x c hc
  rw [purgeStep_ts_lookup] at hc
  by_cases hx : x = s
  · rw [if_pos hx] at hc; cases hc
  · rw [if_neg hx] at hc; exact hks x c hc

theorem purgeStep_coupled (acc : Engine) (s : String) (hC : Coupled acc) :
    Coupled (purgeStep acc s) := by
  obtain ⟨h1, h2⟩ := hC
  rcases hl : lookupA acc.truthStore s with _ | k
  · rw [purgeStep_eq_none acc s hl]; exact ⟨h1, h2⟩
  · obtain ⟨T, hT, hsT⟩ := h1 s k hl
    have hts := purgeStep_ts_eq acc s k hl
    have hsi := purgeStep_si_eq_some acc s k T hl hT
    constructor
    · intro x c hc
      rw [hts] at hc
      have hxs : x ≠ s := by
        intro he
        rw [he, lookupA_eraseA_self] at hc
        cases hc
      rw [lookupA_eraseA_ne _ _ _ hxs] at hc
      obtain ⟨U, hU, hxU⟩ := h1 x c hc
      by_cases hsub : c.subject = k.subject
      · have hUT : U = T := by
          rw [hsub] at hU
          rw [hU] at hT
          injection hT
        subst hUT
        have hxT2 : x ∈ U.filter (fun y => y ≠ s) := by
          simp only [List.mem_filter, decide_eq_true_eq]
          exact ⟨hxU, hxs⟩
        have hemp : (U.filter (fun y => y ≠ s)).isEmpty = false := by
          rcases hf : U.filter (fun y => y ≠ s) with _ | ⟨a, l⟩
          · rw [hf] at hxT2; cases hxT2
          · rfl
        rw [hsi, hemp]
        refine ⟨U.filter (fun y => y ≠ s), ?_, hxT2⟩
        rw [hsub]
        simp only [Bool.false_eq_true, if_false]
        rw [lookupA_insertA_self]
      · rw [hsi]
        refine ⟨U, ?_, hxU⟩
        split
        · rwa [lookupA_eraseA_ne _ _ _ hsub]
        · rwa [lookupA_insertA_ne _ _ _ _ hsub]
    · intro s' S' hS'
      rw [hsi] at hS'
      by_cases hsub : s' = k.subject
      · subst hsub
        rcases hemp : (T.filter (fun y => y ≠ s)).isEmpty with _ | _
        · rw [hemp] at hS'
          simp only [Bool.false_eq_true, if_false] at hS'
          rw [lookupA_insertA_self] at hS'
          injection hS' with hSe
          subst hSe
          constructor
          · intro hnil
            rw [hnil] at hemp
            cases hemp
          · intro x hx
            have hxT : x ∈ T ∧ x ≠ s := by
              simpa only [List.mem_filter, decide_eq_true_eq] using hx
            obtain ⟨_, hall⟩ := h2 k.subject T hT
            obtain ⟨c, hc, hcs⟩ := hall x hxT.1
            refine ⟨c, ?_, hcs⟩
            rw [hts, lookupA_eraseA_ne _ _ _ hxT.2]
            exact hc
        · rw [hemp] at hS'
          simp only [if_true] at hS'
          rw [lookupA_eraseA_self] at hS'
          cases hS'
      · have hS'' : lookupA acc.subjectIndex s' = some S' := by
          rcases hemp : (T.filter (fun y => y ≠ s)).isEmpty with _ | _ <;> rw [hemp] at hS'
          · simp only [Bool.false_eq_true, if_false] at hS'
            rwa [lookupA_insertA_ne _ _ _ _ hsub] at hS'
          · simp only [if_true] at hS'
            rwa [lookupA_eraseA_ne _ _ _ hsub] at hS'
        obtain ⟨hne2, hall⟩ := h2 s' S' hS''
        refine ⟨hne2, fun x hx => ?_⟩
        obtain ⟨c, hc, hcs⟩ := hall x hx
        have hxs : x ≠ s := by
          intro he
          subst he
          rw [hl] at hc
          injection hc with hck
          subst hck
          exact hsub hcs.symm
        refine ⟨c, ?_, hcs⟩
        rw [hts, lookupA_eraseA_ne _ _ _ hxs]
        exact hc

theorem purgeFold_ts_lookup (L : List String) (acc : Engine) (x : String) :
    lookupA (L.foldl purgeStep acc).truthStore x =
      if x ∈ L then none else lookupA acc.truthStore x := by
  induction L generalizing acc with
  | nil => simp
  | cons s L' ih =>
    rw [List.foldl_cons, ih]
    by_cases hxL : x ∈ L'
    · simp [hxL]
    · rw [if_neg hxL, purgeStep_ts_lookup]
      by_cases hxs : x = s
      · simp [hxs]
      · simp [List.mem_cons, hxs, hxL]

theorem purgeFold_coupled (L : List String) (acc : Engine) (hC : Coupled acc) :
    Coupled (L.foldl purgeStep acc) := by
  induction L generalizing acc with
  | nil => exact hC
  | cons s L' ih => exact ih _ (purgeStep_coupled acc s hC)

theorem purgeFold_storedOf (L : List String) (acc : Engine) (S : Kpak → Prop)
    (hst : StoredOf acc S) : StoredOf (L.foldl purgeStep acc) S := by
  induction L generalizing acc with
  | nil => exact hst
  | cons s L' ih => exact ih _ (purgeStep_storedOf acc s S hst)

theorem purgeFold_keyedSelf (L : List String) (acc : Engine) (hks : KeyedSelf acc) :
    KeyedSelf (L.foldl purgeStep acc) := by
  induction L generalizing acc with
  | nil => exact hks
  | cons s L' ih => exact ih _ (purgeStep_keyedSelf acc s hks)

/-! ## Helper lemmas: invariants across operation sequences -/

theorem Reconcile_coupled (e : Engine) (k : Kpak) (S : Kpak → Prop)
    (hC : Coupled e) (hst : StoredOf e S) (hks : KeyedSelf e)
    (hcons : SpidConsistent S) (hkS : S k) : Coupled (e.Reconcile k).1 := by
  cases hacc : (e.Reconcile k).2
  · rw [Reconcile_fst_reject e k hacc]; exact hC
  · rw [Reconcile_fst_accept e k hacc]
    exact acceptKpak_coupled e k S hC hst hks hcons hkS

theorem Reconcile_storedOf (e : Engine) (k : Kpak) (S : Kpak → Prop)
    (hst : StoredOf e S) (hkS : S k) : StoredOf (e.Reconcile k).1 S := by
  cases hacc : (e.Reconcile k).2
  · rw [Reconcile_fst_reject e k hacc]; exact hst
  · rw [Reconcile_fst_accept e k hacc]
    exact acceptKpak_storedOf e k S hst hkS

theorem Reconcile_keyedSelf (e : Engine) (k : Kpak) (hks : KeyedSelf e) :
    KeyedSelf (e.Reconcile k).1 := by
  cases hacc : (e.Reconcile k).2
  · rw [Reconcile_fst_reject e k hacc]; exact hks
  · rw [Reconcile_fst_accept e k hacc]
    exact acceptKpak_keyedSelf e k hks

theorem RemoveExpiredKpaks_coupled (e : Engine) (now : Int) (hC : Coupled e) :
    Coupled (e.RemoveExpiredKpaks now).1 :=
  purgeFold_coupled _ e hC

theorem RemoveExpiredKpaks_storedOf (e : Engine) (now : Int) (S : Kpak → Prop)
    (hst : StoredOf e S) : StoredOf (e.RemoveExpiredKpaks now).1 S :=
  purgeFold_storedOf _ e S hst

theorem RemoveExpiredKpaks_keyedSelf (e : Engine) (now : Int) (hks : KeyedSelf e) :
    KeyedSelf (e.RemoveExpiredKpaks now).1 :=
  purgeFold_keyedSelf _ e hks

theorem coupled_NewEngine : Coupled NewEngine := by
  constructor
  · intro x c hc; cases hc
  · intro s S hS; cases hS

theorem storedOf_NewEngine (S : Kpak → Prop) : StoredOf NewEngine S := by
  intro x c hc; cases hc

theorem keyedSelf_NewEngine : KeyedSelf NewEngine := by
  intro x c hc; cases hc

theorem applyOps_inv (S : Kpak → Prop) (hcons : SpidConsistent S)
    (ops : List EngineOp) (e : Engine)
    (hC : Coupled e) (hst : StoredOf e S) (hks : KeyedSelf e)
    (hops : ∀ k, EngineOp.recK k ∈ ops → S k) :
    Coupled (e.applyOps ops) ∧ StoredOf (e.applyOps ops) S ∧
      KeyedSelf (e.applyOps ops) := by
  induction ops generalizing e with
  | nil => exact ⟨hC, hst, hks⟩
  | cons op ops' ih =>
    have hstep : Coupled (e.applyOp op) ∧ StoredOf (e.applyOp op) S ∧
        KeyedSelf (e.applyOp op) := by
      cases op with
      | recK k =>
        have hkS : S k := hops k (List.mem_cons_self _ _)
        exact ⟨Reconcile_coupled e k S hC hst hks hcons hkS,
          Reconcile_storedOf e k S hst hkS, Reconcile_keyedSelf e k hks⟩
      | purge now =>
        exact ⟨RemoveExpiredKpaks_coupled e now hC,
          RemoveExpiredKpaks_storedOf e now S hst,
          RemoveExpiredKpaks_keyedSelf e now hks⟩
    have hops' : ∀ k, EngineOp.recK k ∈ ops' → S k := fun k hk =>
      hops k (List.mem_cons_of_mem _ hk)
    exact ih (e.applyOp op) hstep.1 hstep.2.1 hstep.2.2 hops'

/-! ## Helper lemmas: purge exactness -/

theorem lookupA_of_mem_nodup {α : Type} (l : List (String × α)) (x : String) (v : α)
    (hN : NodupKeys l) (hmem : (x, v) ∈ l) : lookupA l x = some v := by
  induction l with
  | nil => cases hmem
  | cons q rest ih =>
    rcases List.mem_cons.1 hmem with heq | hrest
    · rw [← heq]
      simp [lookupA]
    · have hNq : q.1 ∉ rest.map Prod.fst := by
        have := (List.nodup_cons.1 hN).1
        simpa using this
      have hq1 : q.1 ≠ x := by
        intro he
        exact hNq (he ▸ List.mem_map_of_mem Prod.fst hrest)
      rw [lookupA, if_neg hq1]
      exact ih (List.nodup_cons.1 hN).2 hrest

theorem mem_filterKeys_iff (l : List (String × Kpak)) (p : String × Kpak → Bool)
    (hN : NodupKeys l) (x : String) :
    x ∈ (l.filter p).map Prod.fst ↔
      ∃ c, lookupA l x = some c ∧ p (x, c) = true := by
  constructor
  · intro hmem
    obtain ⟨pr, hpr, hfst⟩ := List.mem_map.1 hmem
    obtain ⟨hprl, hp⟩ := List.mem_filter.1 hpr
    refine ⟨pr.2, ?_, ?_⟩
    · exact lookupA_of_mem_nodup l x pr.2 hN (by rw [← hfst]; exact hprl)
    · rw [show (x, pr.2) = pr from by rw [← hfst]]
      exact hp
  · rintro ⟨c, hc, hp⟩
    exact List.mem_map_of_mem Prod.fst
      (List.mem_filter.2 ⟨mem_of_lookupA l x c hc, hp⟩)

theorem RemoveExpiredKpaks_fst (e : Engine) (now : Int) :
    (e.RemoveExpiredKpaks now).1 =
      ((e.truthStore.filter (fun p => p.2.IsExpired now)).map Prod.fst).foldl
        purgeStep e := rfl

theorem RemoveExpiredKpaks_count (e : Engine) (now : Int) :
    (e.RemoveExpiredKpaks now).2 =
      (e.truthStore.filter (fun p => p.2.IsExpired now)).length := by
  show ((e.truthStore.filter (fun p => p.2.IsExpired now)).map Prod.fst).length = _
  rw [List.length_map]

theorem RemoveExpiredKpaks_ts_lookup (e : Engine) (now : Int) (x : String)
    (hN : NodupKeys e.truthStore) :
    lookupA (e.RemoveExpiredKpaks now).1.truthStore x =
      (lookupA e.truthStore x).bind
        (fun c => if c.IsExpired now then none else some c) := by
  rw [RemoveExpiredKpaks_fst, purgeFold_ts_lookup]
  rcases hl : lookupA e.truthStore x with _ | c
  · by_cases hmem : x ∈ (e.truthStore.filter (fun p => p.2.IsExpired now)).map Prod.fst
    · obtain ⟨c', hc', _⟩ := (mem_filterKeys_iff _ _ hN x).1 hmem
      rw [hl] at hc'
      cases hc'
    · rw [if_neg hmem]
      rfl
  · by_cases hexp : c.IsExpired now
    · have hmem : x ∈ (e.truthStore.filter (fun p => p.2.IsExpired now)).map Prod.fst :=
        (mem_filterKeys_iff _ _ hN x).2 ⟨c, hl, hexp⟩
      rw [if_pos hmem]
      simp [Option.bind, hexp]
    · have hmem : x ∉ (e.truthStore.filter (fun p => p.2.IsExpired now)).map Prod.fst := by
        intro hmem
        obtain ⟨c', hc', hp⟩ := (mem_filterKeys_iff _ _ hN x).1 hmem
        rw [hl] at hc'
        injection hc' with hcc
        subst hcc
        exact hexp hp
      rw [if_neg hmem]
      simp [Option.bind, hexp]

/-! ## Helper lemmas: WAL loading -/

theorem WALLoadLines_foldl_general (lines : List String) (acc : List Kpak) :
    lines.foldl
      (fun acc line =>
        if line.length = 0 then acc
        else
          match FromJSONStr line with
          | none => acc
          | some k => acc ++ [k])
      acc =
      acc ++ lines.filterMap
        (fun l => if l.length = 0 then none else FromJSONStr l) := by
  induction lines generalizing acc with
  | nil => simp
  | cons l ls ih =>
    rw [List.foldl_cons, List.filterMap_cons]
    by_cases hl : l.length = 0
    · simp only [hl, if_pos rfl, if_true]
      rw [ih]
    · rcases hfj : FromJSONStr l with _ | k
      · simp only [if_neg hl, hfj]
        rw [ih]
      · simp only [if_neg hl, hfj]
        rw [ih, List.append_assoc]
        rfl

theorem WALLoadLines_eq_filterMap (lines : List String) :
    WALLoadLines lines =
      lines.filterMap (fun l => if l.length = 0 then none else FromJSONStr l) := by
  unfold WALLoadLines
  rw [WALLoadLines_foldl_general]
  simp

theorem length_filterMap_all_some {α β : Type} (f : α → Option β) (l : List α)
    (h : ∀ a ∈ l, (f a).isSome) : (l.filterMap f).length = l.length := by
  induction l with
  | nil => rfl
  | cons a l' ih =>
    rw [List.filterMap_cons]
    rcases hfa : f a with _ | b
    · have := h a (List.mem_cons_self _ _)
      rw [hfa] at this
      cases this
    · rw [List.length_cons, ih (fun a' ha' => h a' (List.mem_cons_of_mem _ ha'))]
      rfl

/-! ## Helper lemmas: expiry, ingest path fingerprints, two-claim runs -/

theorem IsExpired_false_iff (k : Kpak) (now : Int) :
    k.IsExpired now = false ↔ (k.expiresAt = 0 ∨ now < k.expiresAt) := by
  unfold Kpak.IsExpired
  by_cases h : k.expiresAt = 0
  · simp [h]
  · simp [h, decide_eq_false_iff_not, not_le]

theorem protoToKpak_wf (d now : Int) (p : ProtoKpak) :
    (protoToKpak d now p).spid =
      GenerateSPIDStr (protoToKpak d now p).subject (protoToKpak d now p).predicate ∧
    (protoToKpak d now p).id =
      generateIDStr (protoToKpak d now p).subject (protoToKpak d now p).predicate
        (protoToKpak d now p).object (protoToKpak d now p).source
        (protoToKpak d now p).confidence (protoToKpak d now p).timestamp := by
  unfold protoToKpak NewKpakWithTTL
  by_cases ht : p.timestamp > 0 <;> by_cases he : p.expiresAt > 0 <;>
    simp [ht, he]

theorem applyOps_storedOf (S : Kpak → Prop) (ops : List EngineOp) (e : Engine)
    (hst : StoredOf e S) (hops : ∀ k, EngineOp.recK k ∈ ops → S k) :
    StoredOf (e.applyOps ops) S := by
  induction ops generalizing e with
  | nil => exact hst
  | cons op ops' ih =>
    have hstep : StoredOf (e.applyOp op) S := by
      cases op with
      | recK k => exact Reconcile_storedOf e k S hst (hops k (List.mem_cons_self _ _))
      | purge now => exact RemoveExpiredKpaks_storedOf e now S hst
    exact ih (e.applyOp op) hstep (fun k hk => hops k (List.mem_cons_of_mem _ hk))

/-- Reconciling `A` then `B` (same spid) into an empty engine leaves `B`
exactly when `B` dominates `A`, and `A` otherwise. -/
theorem pair_lookup (A B : Kpak) (h : A.spid = B.spid) :
    lookupA (((NewEngine.Reconcile A).1.Reconcile B).1).truthStore A.spid =
      some (if B.IsMoreTrustedThan A = true then B else A) := by
  have h1 : NewEngine.Reconcile A = (NewEngine.acceptKpak A, true) :=
    Reconcile_eq_of_lookup_none _ _ (lookupA_nil _)
  rw [h1]
  have hl : lookupA (NewEngine.acceptKpak A).truthStore B.spid = some A := by
    rw [← h]; exact acceptKpak_ts_self NewEngine A
  rw [Reconcile_eq_of_lookup_some _ B A hl]
  cases ht : B.IsMoreTrustedThan A
  · simp only [ht, Bool.false_eq_true, if_false]
    exact acceptKpak_ts_self NewEngine A
  · simp only [ht, if_true]
    rw [h]
    exact acceptKpak_ts_self _ B

/-! ## Claim theorems -/

/-- Claim C1 (amended): for claims `A`, `B` with the same spid reconciled
into an empty store in either order, the claim finally believed is the one
that dominates under the trust order; when neither dominates (equal
confidence and equal timestamp), the earlier-arriving claim remains
believed — the later arrival is rejected. -/
theorem claim_reconcile_pair_order (A B : Kpak) (h : A.spid = B.spid) :
    (A.IsMoreTrustedThan B = true →
      lookupA (((NewEngine.Reconcile A).1.Reconcile B).1).truthStore A.spid = some A ∧
      lookupA (((NewEngine.Reconcile B).1.Reconcile A).1).truthStore A.spid = some A) ∧
    (B.IsMoreTrustedThan A = true →
      lookupA (((NewEngine.Reconcile A).1.Reconcile B).1).truthStore A.spid = some B ∧
      lookupA (((NewEngine.Reconcile B).1.Reconcile A).1).truthStore A.spid = some B) ∧
    (A.IsMoreTrustedThan B = false → B.IsMoreTrustedThan A = false →
      lookupA (((NewEngine.Reconcile A).1.Reconcile B).1).truthStore A.spid = some A ∧
      lookupA (((NewEngine.Reconcile B).1.Reconcile A).1).truthStore A.spid = some B) := by
  have hAB := pair_lookup A B h
  have hBA := pair_lookup B A h.symm
  rw [← h] at hBA
  refine ⟨fun hA => ?_, fun hB => ?_, fun hA hB => ?_⟩
  · rw [hAB, hBA, IsMoreTrustedThan_asymm A B hA, hA]
    exact ⟨rfl, rfl⟩
  · rw [hAB, hBA, IsMoreTrustedThan_asymm B A hB, hB]
    exact ⟨rfl, rfl⟩
  · rw [hAB, hBA, hA, hB]
    exact ⟨rfl, rfl⟩

/-- Claim C1 (counterexample): two claims with the same spid, equal
confidence and equal timestamp, submitted first `kTieA` then `kTieB`: the
claim finally believed is the earlier-arriving `kTieA`, not the
later-arriving `kTieB` as the claim states. -/
theorem claim_reconcile_pair_order_cex :
    kTieA.spid = kTieB.spid ∧
    kTieA.confidence = kTieB.confidence ∧
    kTieA.timestamp = kTieB.timestamp ∧
    kTieB ≠ kTieA ∧
    lookupA (((NewEngine.Reconcile kTieA).1.Reconcile kTieB).1).truthStore
      kTieB.spid = some kTieA := by
  refine ⟨rfl, rfl, rfl, by decide, by decide⟩

/-- Claim C2: `reconcile(c)` accepts exactly when no claim is stored under
`c.spid` or `c` dominates the stored claim; on acceptance it installs `c`
in both containers; on rejection the store is unchanged; the trust order
is confidence-then-timestamp; re-submitting the identical stored claim is
rejected. -/
theorem claim_reconcile_spec (e : Engine) (c : Kpak) :
    ((e.Reconcile c).2 = true ↔
      lookupA e.truthStore c.spid = none ∨
        ∃ old, lookupA e.truthStore c.spid = some old ∧
          c.IsMoreTrustedThan old = true) ∧
    (∀ A B : Kpak, A.IsMoreTrustedThan B = true ↔
      (B.confidence < A.confidence ∨
        (A.confidence = B.confidence ∧ B.timestamp < A.timestamp))) ∧
    ((e.Reconcile c).2 = true →
      lookupA (e.Reconcile c).1.truthStore c.spid = some c ∧
        ∃ S, lookupA (e.Reconcile c).1.subjectIndex c.subject = some S ∧
          c.spid ∈ S) ∧
    ((e.Reconcile c).2 = false → (e.Reconcile c).1 = e) ∧
    (lookupA e.truthStore c.spid = some c → (e.Reconcile c).2 = false) := by
  refine ⟨Reconcile_accept_iff e c, trusted_iff, fun hacc => ?_,
    Reconcile_fst_reject e c, Reconcile_self_reject e c⟩
  rw [Reconcile_fst_accept e c hacc]
  exact ⟨acceptKpak_ts_self e c, acceptKpak_si_self e c⟩

theorem claim_reconcile_spec_witness :
    lookupA ((NewEngine.Reconcile kTieA).1).truthStore kTieA.spid = some kTieA ∧
    ((NewEngine.Reconcile kTieA).1.Reconcile kTieA).2 = false :=
  ⟨by decide,
   (claim_reconcile_spec (NewEngine.Reconcile kTieA).1 kTieA).2.2.2.2 (by decide)⟩

theorem claim_reconcile_pair_order_witness :
    kTieA.spid = kTieB.spid ∧
    kTieA.IsMoreTrustedThan kTieB = false ∧
    kTieB.IsMoreTrustedThan kTieA = false ∧
    lookupA (((NewEngine.Reconcile kTieA).1.Reconcile kTieB).1).truthStore
      kTieA.spid = some kTieA ∧
    lookupA (((NewEngine.Reconcile kTieB).1.Reconcile kTieA).1).truthStore
      kTieA.spid = some kTieB :=
  ⟨rfl, by decide, by decide,
   ((claim_reconcile_pair_order kTieA kTieB rfl).2.2 (by decide) (by decide)).1,
   ((claim_reconcile_pair_order kTieA kTieB rfl).2.2 (by decide) (by decide)).2⟩

/-- Claim C10: when reconciliation accepts a claim but the WAL append
fails, the claim stays installed in the truth store (no rollback), it is
not broadcast, and the ingest response counts it as rejected; a later
query by its subject and predicate returns it. -/
theorem claim_ingest_wal_failure (e : Engine) (k : Kpak)
    (hacc : (e.Reconcile k).2 = true)
    (hspid : k.spid = GenerateSPIDStr k.subject k.predicate) :
    (ingestOne e k false).engine = (e.Reconcile k).1 ∧
    lookupA (ingestOne e k false).engine.truthStore k.spid = some k ∧
    (ingestOne e k false).broadcasted = false ∧
    (ingestOne e k false).accepted = 0 ∧
    (ingestOne e k false).rejected = 1 ∧
    (ingestOne e k false).engine.QueryBySubjectPredicate k.subject k.predicate =
      some k := by
  have hio : ingestOne e k false =
      { engine := (e.Reconcile k).1, accepted := 0, rejected := 1, errs := 1,
        broadcasted := false } := by
    unfold ingestOne
    rcases hr : e.Reconcile k with ⟨e2, b⟩
    have hb : b = true := by rw [hr] at hacc; exact hacc
    subst hb
    have he2 : e2 = (e.Reconcile k).1 := by rw [hr]
    rw [he2]
    rfl
  have hfst := Reconcile_fst_accept e k hacc
  have hlk : lookupA (e.Reconcile k).1.truthStore k.spid = some k := by
    rw [hfst]; exact acceptKpak_ts_self e k
  refine ⟨by rw [hio], by rw [hio]; exact hlk, by rw [hio], by rw [hio],
    by rw [hio], ?_⟩
  rw [hio]
  show lookupA (e.Reconcile k).1.truthStore
    (GenerateSPIDStr k.subject k.predicate) = some k
  rw [← hspid]
  exact hlk

theorem claim_ingest_wal_failure_witness :
    (NewEngine.Reconcile kIngestC10).2 = true ∧
    kIngestC10.spid = GenerateSPIDStr kIngestC10.subject kIngestC10.predicate ∧
    (ingestOne NewEngine kIngestC10 false).broadcasted = false ∧
    (ingestOne NewEngine kIngestC10 false).rejected = 1 ∧
    (ingestOne NewEngine kIngestC10 false).engine.QueryBySubjectPredicate
      "server1" "status" = some kIngestC10 :=
  ⟨rfl, rfl,
   (claim_ingest_wal_failure NewEngine kIngestC10 rfl rfl).2.2.1,
   (claim_ingest_wal_failure NewEngine kIngestC10 rfl rfl).2.2.2.2.1,
   (claim_ingest_wal_failure NewEngine kIngestC10 rfl rfl).2.2.2.2.2⟩

/-- Claim C9: `BroadcastKpak` fails exactly when the gossip layer is not
running; when running it succeeds for every claim regardless of how many
per-peer sends fail (outcomes are only carried, never turned into an
error), and the local node is excluded from the send targets. -/
theorem claim_broadcast_contract (m : GossipManager) (sendOk : MemberInfo → Bool)
    (k : Kpak) (hwf : m.running = true → m.memberlist ≠ none) :
    ((∃ err, BroadcastKpak m sendOk k = Except.error err) ↔ m.running = false) ∧
    (∀ ms, m.running = true → m.memberlist = some ms →
      BroadcastKpak m sendOk k =
        Except.ok ((ms.filter (fun mem => mem.name != m.localName)).map
          (fun mem => (mem, sendOk mem)))) ∧
    (∀ l, BroadcastKpak m sendOk k = Except.ok l →
      ∀ pr ∈ l, pr.1.name ≠ m.localName) := by
  cases hr : m.running
  · have hbr : BroadcastKpak m sendOk k = Except.error "gossip manager not running" := by
      unfold BroadcastKpak
      rw [hr]
      rfl
    refine ⟨⟨fun _ => rfl, fun _ => ⟨_, hbr⟩⟩, ?_, ?_⟩
    · intro ms hrun _
      exact Bool.noConfusion hrun
    · intro l hl
      rw [hbr] at hl
      cases hl
  · rcases hml : m.memberlist with _ | ms
    · exact absurd hml (hwf hr)
    · have hbr : BroadcastKpak m sendOk k =
          Except.ok ((ms.filter (fun mem => mem.name != m.localName)).map
            (fun mem => (mem, sendOk mem))) := by
        unfold BroadcastKpak
        rw [hr, hml]
        rfl
      refine ⟨⟨?_, ?_⟩, ?_, ?_⟩
      · rintro ⟨err, herr⟩
        rw [hbr] at herr
        cases herr
      · intro hfalse
        exact Bool.noConfusion hfalse
      · intro ms' _ hml'
        injection hml' with hmse
        subst hmse
        exact hbr
      · intro l hl pr hpr
        rw [hbr] at hl
        injection hl with hle
        subst hle
        obtain ⟨mem, hmem, hpr2⟩ := List.mem_map.1 hpr
        obtain ⟨_, hname⟩ := List.mem_filter.1 hmem
        rw [← hpr2]
        simpa [bne_iff_ne] using hname

theorem claim_broadcast_contract_witness :
    (gossipRunningM.running = true → gossipRunningM.memberlist ≠ none) ∧
    ((∃ err, BroadcastKpak gossipRunningM (fun _ => false) kTieA =
        Except.error err) ↔ gossipRunningM.running = false) :=
  ⟨by decide,
   (claim_broadcast_contract gossipRunningM (fun _ => false) kTieA (by decide)).1⟩

/-- Claim C6: on ingest, an inbound `expiresAt > 0` is preserved;
otherwise a configured `defaultTtlSeconds > 0` yields
`expiresAt = now + defaultTtlSeconds`, else `expiresAt = 0`; an inbound
`timestamp > 0` is preserved, with `id` and `spid` recomputed from the
final field values; otherwise the claim is stamped with `now`. -/
theorem claim_proto_mediation (d now : Int) (p : ProtoKpak) :
    (p.expiresAt > 0 → (protoToKpak d now p).expiresAt = p.expiresAt) ∧
    (p.expiresAt ≤ 0 → d > 0 → (protoToKpak d now p).expiresAt = now + d) ∧
    (p.expiresAt ≤ 0 → d ≤ 0 → (protoToKpak d now p).expiresAt = 0) ∧
    (p.timestamp > 0 → (protoToKpak d now p).timestamp = p.timestamp ∧
      (protoToKpak d now p).id =
        generateIDStr p.subject p.predicate p.object p.source p.confidence
          p.timestamp ∧
      (protoToKpak d now p).spid = GenerateSPIDStr p.subject p.predicate) ∧
    (p.timestamp ≤ 0 → (protoToKpak d now p).timestamp = now) := by
  refine ⟨fun hE => ?_, fun hE hD => ?_, fun hE hD => ?_, fun hT => ?_, fun hT => ?_⟩
  · unfold protoToKpak NewKpakWithTTL
    by_cases ht : p.timestamp > 0 <;> simp [ht, hE]
  · have hE' : ¬ p.expiresAt > 0 := not_lt.2 hE
    unfold protoToKpak NewKpakWithTTL
    by_cases ht : p.timestamp > 0 <;> simp [ht, hE', hD]
  · have hE' : ¬ p.expiresAt > 0 := not_lt.2 hE
    have hD' : ¬ d > 0 := not_lt.2 hD
    unfold protoToKpak NewKpakWithTTL
    by_cases ht : p.timestamp > 0 <;> simp [ht, hE', hD']
  · unfold protoToKpak NewKpakWithTTL
    by_cases he : p.expiresAt > 0 <;> simp [hT, he]
  · have hT' : ¬ p.timestamp > 0 := not_lt.2 hT
    unfold protoToKpak NewKpakWithTTL
    by_cases he : p.expiresAt > 0 <;> simp [hT', he]

theorem claim_proto_mediation_witness :
    protoC6.expiresAt > 0 ∧ protoC6.timestamp > 0 ∧
    (protoToKpak 0 100 protoC6).expiresAt = protoC6.expiresAt ∧
    (protoToKpak 0 100 protoC6).timestamp = protoC6.timestamp ∧
    (protoToKpak 0 100 protoC6).spid =
      GenerateSPIDStr protoC6.subject protoC6.predicate :=
  ⟨by decide, by decide,
   (claim_proto_mediation 0 100 protoC6).1 (by decide),
   ((claim_proto_mediation 0 100 protoC6).2.2.2.1 (by decide)).1,
   ((claim_proto_mediation 0 100 protoC6).2.2.2.1 (by decide)).2.2⟩

/-- Claim C3 (amended): every claim held in the truth store that entered
via the ingest path (`protoToKpak`) satisfies
`spid = hash12(subject|predicate)` and `id = hash16(content payload)`;
claims arriving via the gossip inbound path or WAL replay are installed
with whatever `id`/`spid` the wire record carries, so the store invariant
can fail for those paths. -/
theorem claim_stored_fingerprints_ingest (ops : List EngineOp)
    (h : ∀ k, EngineOp.recK k ∈ ops → ∃ d now p, k = protoToKpak d now p) :
    ∀ x c, lookupA (NewEngine.applyOps ops).truthStore x = some c →
      c.spid = GenerateSPIDStr c.subject c.predicate ∧
      c.id = generateIDStr c.subject c.predicate c.object c.source
        c.confidence c.timestamp := by
  have hops : ∀ k, EngineOp.recK k ∈ ops →
      (k.spid = GenerateSPIDStr k.subject k.predicate ∧
        k.id = generateIDStr k.subject k.predicate k.object k.source
          k.confidence k.timestamp) := by
    intro k hk
    obtain ⟨d, now, p, hkp⟩ := h k hk
    subst hkp
    exact protoToKpak_wf d now p
  exact applyOps_storedOf _ ops NewEngine (storedOf_NewEngine _) hops

theorem claim_stored_fingerprints_ingest_witness :
    (∀ k, EngineOp.recK k ∈ [EngineOp.recK (protoToKpak 0 100 protoC6)] →
      ∃ d now p, k = protoToKpak d now p) ∧
    (∀ x c,
      lookupA (NewEngine.applyOps
        [EngineOp.recK (protoToKpak 0 100 protoC6)]).truthStore x = some c →
      c.spid = GenerateSPIDStr c.subject c.predicate ∧
      c.id = generateIDStr c.subject c.predicate c.object c.source
        c.confidence c.timestamp) :=
  ⟨by
    intro k hk
    simp only [List.mem_singleton, EngineOp.recK.injEq] at hk
    exact ⟨0, 100, protoC6, hk⟩,
   claim_stored_fingerprints_ingest _ (by
    intro k hk
    simp only [List.mem_singleton, EngineOp.recK.injEq] at hk
    exact ⟨0, 100, protoC6, hk⟩)⟩

set_option maxRecDepth 100000 in
/-- Claim C3 (counterexample): a WAL record carrying a forged `spid` is
replayed verbatim into the truth store: the stored claim's `spid` is not
the 12-hex-char SHA-256 prefix of its subject and predicate. -/
theorem claim_stored_fingerprints_cex :
    WALLoad (some [walForgedLine]) = [kForged] ∧
    lookupA engineReplayForged.truthStore "feedfacef00d" = some kForged ∧
    kForged.spid ≠ GenerateSPIDStr kForged.subject kForged.predicate := by
  refine ⟨by decide, by decide, by decide⟩

/-- Claim C4 (amended): after every sequence of store operations
(reconcile, purge) starting from the empty store in which any two
reconciled claims sharing a spid share their subject — as is the case
whenever spids are genuinely derived from subject and predicate — the two
containers stay coupled: every stored claim is indexed under its subject,
and every subject entry is non-empty and resolves to claims of that
subject.  Claims carrying forged spids (possible on the gossip and WAL
paths) can break the coupling. -/
theorem claim_coupling_invariant (ops : List EngineOp)
    (hcons : ∀ k1 k2, EngineOp.recK k1 ∈ ops → EngineOp.recK k2 ∈ ops →
      k1.spid = k2.spid → k1.subject = k2.subject) :
    Coupled (NewEngine.applyOps ops) :=
  (applyOps_inv (fun k => EngineOp.recK k ∈ ops)
    (fun k1 k2 h1 h2 => hcons k1 k2 h1 h2) ops NewEngine coupled_NewEngine
    (storedOf_NewEngine _) keyedSelf_NewEngine (fun _ hk => hk)).1

theorem claim_coupling_invariant_witness :
    (∀ k1 k2, EngineOp.recK k1 ∈ [EngineOp.recK kTieA] →
      EngineOp.recK k2 ∈ [EngineOp.recK kTieA] →
      k1.spid = k2.spid → k1.subject = k2.subject) ∧
    Coupled (NewEngine.applyOps [EngineOp.recK kTieA]) :=
  ⟨by
    intro k1 k2 h1 h2 _
    simp only [List.mem_singleton, EngineOp.recK.injEq] at h1 h2
    rw [h1, h2],
   claim_coupling_invariant _ (by
    intro k1 k2 h1 h2 _
    simp only [List.mem_singleton, EngineOp.recK.injEq] at h1 h2
    rw [h1, h2])⟩

/-- Claim C4 (counterexample): two reconciled claims with the same spid
but different subjects (as WAL replay or gossip can deliver) leave the
store uncoupled: the subject entry for `Bob` still holds the spid, but
the spid now resolves to a claim whose subject is `Alice`. -/
theorem claim_coupling_invariant_cex :
    ¬ Coupled (((NewEngine.Reconcile kBob).1.Reconcile kAliceForged).1) := by
  intro hC
  obtain ⟨c, hc, hcs⟩ :=
    (hC.2 "Bob" ["abc"] (by decide)).2 "abc" (by simp)
  have hl : lookupA
      (((NewEngine.Reconcile kBob).1.Reconcile kAliceForged).1).truthStore
      "abc" = some kAliceForged := by decide
  rw [hl] at hc
  injection hc with hce
  subst hce
  exact absurd hcs (by decide)

/-- Claim C5: a purge pass removes exactly the claims expired at the time
of the pass and returns their count; afterwards every remaining claim
satisfies `expiresAt = 0 ∨ now < expiresAt`, the pruned spids appear in no
subject entry, subject entries left empty are deleted, and the containers
remain coupled. -/
theorem claim_purge_expired (e : Engine) (now : Int)
    (hC : Coupled e) (hN : NodupKeys e.truthStore) :
    ((e.RemoveExpiredKpaks now).2 =
      (e.truthStore.filter (fun p => p.2.IsExpired now)).length) ∧
    (∀ x, lookupA (e.RemoveExpiredKpaks now).1.truthStore x =
      (lookupA e.truthStore x).bind
        (fun c => if c.IsExpired now then none else some c)) ∧
    (∀ x c, lookupA (e.RemoveExpiredKpaks now).1.truthStore x = some c →
      c.expiresAt = 0 ∨ now < c.expiresAt) ∧
    (∀ x c, lookupA e.truthStore x = some c → c.IsExpired now = true →
      ∀ s S, lookupA (e.RemoveExpiredKpaks now).1.subjectIndex s = some S →
        x ∉ S) ∧
    (∀ s S, lookupA (e.RemoveExpiredKpaks now).1.subjectIndex s = some S →
      S ≠ []) ∧
    Coupled (e.RemoveExpiredKpaks now).1 := by
  have hCp : Coupled (e.RemoveExpiredKpaks now).1 :=
    RemoveExpiredKpaks_coupled e now hC
  refine ⟨RemoveExpiredKpaks_count e now,
    fun x => RemoveExpiredKpaks_ts_lookup e now x hN, ?_, ?_, ?_, hCp⟩
  · intro x c hc
    rw [RemoveExpiredKpaks_ts_lookup e now x hN] at hc
    rcases hl : lookupA e.truthStore x with _ | c0
    · rw [hl] at hc; cases hc
    · rw [hl] at hc
      by_cases hexp : c0.IsExpired now = true
      · simp only [Option.bind, hexp, if_true] at hc
        cases hc
      · simp only [Option.bind, hexp, if_false, Bool.false_eq_true] at hc
        injection hc with hcc
        subst hcc
        exact (IsExpired_false_iff c0 now).1 (Bool.eq_false_iff.2 hexp)
  · intro x c hc hexp s S hS hxS
    obtain ⟨c', hc', _⟩ := (hCp.2 s S hS).2 x hxS
    rw [RemoveExpiredKpaks_ts_lookup e now x hN, hc] at hc'
    simp only [Option.bind, hexp, if_true] at hc'
    cases hc'
  · intro s S hS
    exact (hCp.2 s S hS).1

theorem claim_purge_expired_witness :
    Coupled engineC5 ∧ NodupKeys engineC5.truthStore ∧
    (engineC5.RemoveExpiredKpaks 100).2 = 1 ∧
    lookupA (engineC5.RemoveExpiredKpaks 100).1.truthStore "spE" = none := by
  have hC : Coupled engineC5 :=
    (applyOps_inv (fun k => k = kExpiring)
      (by intro k1 k2 h1 h2 _; rw [h1, h2]) [EngineOp.recK kExpiring] NewEngine
      coupled_NewEngine (storedOf_NewEngine _) keyedSelf_NewEngine
      (by intro k hk; simpa [EngineOp.recK.injEq] using hk)).1
  have hN : NodupKeys engineC5.truthStore := by
    show (engineC5.truthStore.map Prod.fst).Nodup
    decide
  have h := claim_purge_expired engineC5 100 hC hN
  refine ⟨hC, hN, ?_, ?_⟩
  · rw [h.1]; decide
  · rw [h.2.1 "spE"]; decide

/-- Claim C7: `Load` reads the file line by line, skips every line that
fails deserialization without aborting, and returns the remaining claims
in file order; a log of N lines whose only defect is one malformed middle
line yields N−1 claims; a missing file yields an empty sequence and no
error. -/
theorem claim_wal_load (pre post : List String) (bad : String)
    (hgood : ∀ l ∈ pre ++ post, l.length ≠ 0 ∧ (FromJSONStr l).isSome)
    (hbad : FromJSONStr bad = none) :
    WALLoad none = [] ∧
    (∀ lines, WALLoad (some lines) =
      lines.filterMap (fun l => if l.length = 0 then none else FromJSONStr l)) ∧
    (WALLoad (some (pre ++ bad :: post))).length = pre.length + post.length := by
  refine ⟨rfl, fun lines => WALLoadLines_eq_filterMap lines, ?_⟩
  show (WALLoadLines (pre ++ bad :: post)).length = _
  rw [WALLoadLines_eq_filterMap, List.filterMap_append, List.filterMap_cons]
  have hfbad : (if bad.length = 0 then none else FromJSONStr bad) = none := by
    by_cases hb0 : bad.length = 0
    · rw [if_pos hb0]
    · rw [if_neg hb0]; exact hbad
  rw [hfbad, List.length_append]
  have hpre : ((pre.filterMap
      (fun l => if l.length = 0 then none else FromJSONStr l)).length) = pre.length :=
    length_filterMap_all_some _ pre (by
      intro l hl
      obtain ⟨h0, hs⟩ := hgood l (List.mem_append_left _ hl)
      rw [if_neg h0]
      exact hs)
  have hpost : ((post.filterMap
      (fun l => if l.length = 0 then none else FromJSONStr l)).length) = post.length :=
    length_filterMap_all_some _ post (by
      intro l hl
      obtain ⟨h0, hs⟩ := hgood l (List.mem_append_right _ hl)
      rw [if_neg h0]
      exact hs)
  rw [hpre, hpost]

set_option maxRecDepth 100000 in
theorem claim_wal_load_witness :
    (∀ l ∈ [walGoodLine1] ++ [walGoodLine2],
      l.length ≠ 0 ∧ (FromJSONStr l).isSome) ∧
    FromJSONStr walBadLine = none ∧
    (WALLoad (some ([walGoodLine1] ++ walBadLine :: [walGoodLine2]))).length = 2 :=
  ⟨by decide, by decide,
   (claim_wal_load [walGoodLine1] [walGoodLine2] walBadLine
     (by decide) (by decide)).2.2⟩

/-- Claim C8: deserializing the serialization of any claim returns the
claim unchanged, field for field, including the derived `id` and `spid`. -/
theorem claim_wire_roundtrip (k : Kpak) :
    Kpak.FromJSON (Kpak.ToJSON k) = some k := by
  unfold Kpak.ToJSON Kpak.FromJSON jsonField
  simp [lookupA, getStr, getNum, getInt, Rat.den_intCast, Rat.num_intCast,
    Option.bind]
